import Mathlib

/-!
Verification development for the python-teos core (watchtower):
shallow embedding of `pisa/chain_monitor.py`, `pisa/appointment.py` and
`common/cryptographer.py`, with theorems about the embedded operations.

Conventions of the embedding:
* Python byte strings are `List Nat` (each entry intended `< 256`).
* Python `str` is `String`.
* A Python call that can raise is an `Except PyErr _`; a caught-and-logged
  failure that returns `None` is an `Option` inside `.ok`.
* External libraries (ChaCha20Poly1305, secp256k1, zbase32) are parameters
  of the functions that call them, so that theorems can state exactly which
  contracts of the external primitives each property relies on.
-/

/-- Python exceptions that the embedded code can raise. -/
inductive PyErr where
  /-- `ValueError(msg)` -/
  | valueError (msg : String)
  /-- `binascii.Error` raised by `unhexlify` on odd-length or non-hex input. -/
  | binasciiError
  /-- `IndexError` from indexing past the end of a bytes object. -/
  | indexError
  /-- `OverflowError` from `int.to_bytes` on a negative integer. -/
  | overflowError
deriving DecidableEq, Repr

deriving instance DecidableEq for Except

/-! ## ChainMonitor (`pisa/chain_monitor.py`)

State of a `ChainMonitor` instance. `best_tip` starts as Python `None`, so it
is an `Option`; `last_tips` starts as `[]` and the code appends the previous
`best_tip` to it, so its elements are `Option String` (the very first update
appends `None`).  The two consumer queues only ever get hashes appended
(`Queue.put`), so they are embedded as lists with append at the back. -/

structure ChainMonitor where
  best_tip : Option String
  last_tips : List (Option String)
  watcher_queue : List String
  responder_queue : List String
deriving DecidableEq, Repr

/-- `ChainMonitor.__init__`: `best_tip = None`, `last_tips = []`, queues empty. -/
def ChainMonitor.init : ChainMonitor :=
  { best_tip := none, last_tips := [], watcher_queue := [], responder_queue := [] }

/-- `ChainMonitor.notify_subscribers`: put the hash in both consumer queues. -/
def notify_subscribers (s : ChainMonitor) (block_hash : String) : ChainMonitor :=
  { s with
    watcher_queue := s.watcher_queue ++ [block_hash]
    responder_queue := s.responder_queue ++ [block_hash] }

/-- `ChainMonitor.update_state`: if the candidate differs from `best_tip` and is
not in `last_tips`, append the previous `best_tip` to `last_tips`, set
`best_tip` to the candidate, `pop(0)` when the list got longer than
`max_block_window_size`, and return `True`; otherwise return `False`.
Python's `block_hash != self.best_tip` compares a `str` against `str`-or-`None`
and `block_hash not in self.last_tips` likewise, which is exactly
`some block_hash ≠ s.best_tip` / `some block_hash ∉ s.last_tips`. -/
def update_state (s : ChainMonitor) (block_hash : String) (max_block_window_size : Nat) :
    Bool × ChainMonitor :=
  if some block_hash ≠ s.best_tip ∧ some block_hash ∉ s.last_tips then
    let lt := s.last_tips ++ [s.best_tip]
    let lt := if lt.length > max_block_window_size then lt.tail else lt
    (true, { s with best_tip := some block_hash, last_tips := lt })
  else
    (false, s)

/-- One serialized pass of the critical section shared by
`monitor_chain_polling` and `monitor_chain_zmq`: under the lock, call
`update_state` and, only when it returned `True`, `notify_subscribers`. -/
def processTip (w : Nat) (s : ChainMonitor) (block_hash : String) : ChainMonitor :=
  let r := update_state s block_hash w
  if r.1 then notify_subscribers r.2 block_hash else r.2

/-- A serialized sequence of critical sections (both detection paths go through
the same lock, so any interleaving is some such sequence). -/
def runTips (w : Nat) (s : ChainMonitor) (tips : List String) : ChainMonitor :=
  tips.foldl (processTip w) s

/-- A serialized sequence of bare `update_state` calls. -/
def runUpdates (w : Nat) (s : ChainMonitor) (tips : List String) : ChainMonitor :=
  tips.foldl (fun s h => (update_state s h w).2) s

/-- A hash is recorded by the monitor when it is the current `best_tip` or
appears in the `last_tips` window. -/
def recorded (s : ChainMonitor) (h : String) : Prop :=
  some h = s.best_tip ∨ some h ∈ s.last_tips

instance (s : ChainMonitor) (h : String) : Decidable (recorded s h) := by
  unfold recorded; infer_instance

/-- State invariant of the monitor: the current `best_tip` is not in the
window, and the window holds no duplicates. -/
def chainInv (s : ChainMonitor) : Prop :=
  s.best_tip ∉ s.last_tips ∧ s.last_tips.Nodup

instance (s : ChainMonitor) : Decidable (chainInv s) := by
  unfold chainInv; infer_instance

/-! ## Hex encoding (`binascii.unhexlify` / `binascii.hexlify`)

`unhexlify` accepts upper- and lower-case hex digits and raises
`binascii.Error` on odd length or a non-hex character; `hexlify` always
produces lower-case digits. -/

/-- Value of one hex digit, upper or lower case; `none` for a non-hex char. -/
def hexVal (c : Char) : Option Nat :=
  if '0' ≤ c ∧ c ≤ '9' then some (c.toNat - 48)
  else if 'a' ≤ c ∧ c ≤ 'f' then some (c.toNat - 87)
  else if 'A' ≤ c ∧ c ≤ 'F' then some (c.toNat - 55)
  else none

/-- Lower-case hex digit for a value `< 16`. -/
def toHexDigit (n : Nat) : Char :=
  if n < 10 then Char.ofNat (n + 48) else Char.ofNat (n + 87)

/-- `binascii.unhexlify` on the character list of a hex string. -/
def unhexlifyChars : List Char → Except PyErr (List Nat)
  | [] => .ok []
  | [_] => .error .binasciiError
  | c1 :: c2 :: rest =>
    match hexVal c1, hexVal c2 with
    | some v1, some v2 => do
      let bs ← unhexlifyChars rest
      .ok ((16 * v1 + v2) :: bs)
    | _, _ => .error .binasciiError

/-- `binascii.hexlify` (lower-case output) on a byte list. -/
def hexlifyChars : List Nat → List Char
  | [] => []
  | b :: bs => toHexDigit (b / 16) :: toHexDigit (b % 16) :: hexlifyChars bs

/-- `binascii.unhexlify` on a Python `str`. -/
def pyUnhexlify (s : String) : Except PyErr (List Nat) :=
  unhexlifyChars s.data

/-- `binascii.hexlify(...).decode("utf8")` on a byte list. -/
def hexlifyStr (bs : List Nat) : String :=
  String.mk (hexlifyChars bs)

/-- A character is a hex digit (either case). -/
def isHexChar (c : Char) : Bool :=
  (hexVal c).isSome

/-- A character is a lower-case-canonical hex digit (`0-9a-f`). -/
def isLowerHexChar (c : Char) : Bool :=
  decide (('0' ≤ c ∧ c ≤ '9') ∨ ('a' ≤ c ∧ c ≤ 'f'))

/-- Modelled from the spec: `common.tools.check_sha256_hex_format` is imported
by `common/cryptographer.py` but its module is not part of the sources; the
spec states the secret must be "exactly 64 hex characters (32 bytes)", and the
repository's unit tests pin it to: 64 hex characters of either case. -/
def check_sha256_hex_format (value : String) : Bool :=
  value.length == 64 && value.data.all isHexChar

/-! ## Cryptographer (`common/cryptographer.py`): symmetric part -/

/-- Modelled from the spec: `common.blob.Blob` (module not in the sources) is
the plaintext wrapper, "plaintext hex-encoded transaction bytes". -/
structure Blob where
  data : String
deriving DecidableEq, Repr

/-- Modelled from the spec: `pisa.encrypted_blob.EncryptedBlob` (module not in
the sources) wraps "ciphertext hex-encoded bytes"; per the unit tests
`EncryptedBlob(data).data == data` and equality is by `data`. -/
structure EncryptedBlob where
  data : String
deriving DecidableEq, Repr

/-- External primitives used by `encrypt` / `decrypt`: `hashlib.sha256` and
`ChaCha20Poly1305` from the `cryptography` package.  `chachaDecrypt` returns
`none` where the library raises `InvalidTag`. -/
structure AEADPrims where
  sha256 : List Nat → List Nat
  chachaEncrypt : (key nonce data : List Nat) → List Nat
  chachaDecrypt : (key nonce data : List Nat) → Option (List Nat)

/-- `Cryptographer.check_data_key_format`: raise `ValueError` on odd-length
data, then raise `ValueError` if the secret is not a 64-char hex value;
otherwise return `True`. -/
def check_data_key_format (data secret : String) : Except PyErr Bool :=
  if data.length % 2 ≠ 0 then
    .error (.valueError "Incorrect (Odd-length) value")
  else if ¬ check_sha256_hex_format secret then
    .error (.valueError "Secret must be a 32-byte hex value (64 hex chars)")
  else
    .ok true

/-- `Cryptographer.encrypt`: format-check, `unhexlify` the data and the
secret, derive the key as `sha256(unhexlify(secret))`, use a 12-byte zero
nonce, encrypt, and return the hex-encoded ciphertext. -/
def encrypt (P : AEADPrims) (blob : Blob) (secret : String) : Except PyErr String := do
  let _ ← check_data_key_format blob.data secret
  let tx ← pyUnhexlify blob.data
  let key ← pyUnhexlify secret
  let sk := P.sha256 key
  let nonce := List.replicate 12 0
  .ok (hexlifyStr (P.chachaEncrypt sk nonce tx))

/-- `Cryptographer.decrypt`: format-check, derive the key as in `encrypt`,
`unhexlify` the ciphertext and decrypt; an `InvalidTag` is caught and turned
into a `None` result. -/
def decrypt (P : AEADPrims) (encrypted_blob : EncryptedBlob) (secret : String) :
    Except PyErr (Option String) := do
  let _ ← check_data_key_format encrypted_blob.data secret
  let key ← pyUnhexlify secret
  let sk := P.sha256 key
  let nonce := List.replicate 12 0
  let data ← pyUnhexlify encrypted_blob.data
  match P.chachaDecrypt sk nonce data with
  | some blob => .ok (some (hexlifyStr blob))
  | none => .ok none

/-- A concrete cipher satisfying the AEAD functional contract
(`decrypt ∘ encrypt = id` for matching key/nonce), used to instantiate the
parametric theorems at concrete inputs. -/
def idAEAD : AEADPrims :=
  { sha256 := fun bs => bs
    chachaEncrypt := fun _ _ data => data
    chachaDecrypt := fun _ _ data => some data }

/-! ## Cryptographer (`common/cryptographer.py`): recoverable signatures -/

/-- `b"Lightning Signed Message:"` as a byte list. -/
def LN_MESSAGE_PREFIX : List Nat :=
  "Lightning Signed Message:".data.map Char.toNat

/-- `coincurve.utils.int_to_bytes` (external): a non-negative int as minimal
big-endian bytes, at least one byte (so `int_to_bytes 0 = [0]`). -/
def int_to_bytes (n : Nat) : List Nat :=
  if n < 256 then [n] else int_to_bytes (n / 256) ++ [n % 256]
decreasing_by exact Nat.div_lt_self (by omega) (by omega)

/-- `sigrec_encode`: move the recovery id from byte 64 to the front, offset
by `+31`.  Python's `rsig_rid[64]` raises `IndexError` when the input is
shorter than 65 bytes. -/
def sigrec_encode (rsig_rid : List Nat) : Except PyErr (List Nat) :=
  if h : 64 < rsig_rid.length then
    .ok (int_to_bytes (rsig_rid.get ⟨64, h⟩ + 31) ++ rsig_rid.take 64)
  else
    .error .indexError

/-- `sigrec_decode`: inverse transform.  `sigrec[0]` raises `IndexError` on an
empty input, and `int_to_bytes(sigrec[0] - 31)` raises `OverflowError` when
the first byte is below 31 (negative int to `to_bytes`). -/
def sigrec_decode (sigrec : List Nat) : Except PyErr (List Nat) :=
  match sigrec with
  | [] => .error .indexError
  | b :: rsig =>
    if b < 31 then .error .overflowError
    else .ok (rsig ++ int_to_bytes (b - 31))

/-- External primitives used by `sign` / `recover_pk` / `verify_rpk`:
`coincurve` key operations and `pyzbase32`.  `signRecoverable sk msg` is
`sk.sign_recoverable(msg, hasher=sha256d)` (a 65-byte `rsig ++ [recovery id]`);
`fromSignatureAndMessage sig msg` is
`PublicKey.from_signature_and_message(sig, msg, hasher=sha256d)`, with
`.error` for any exception the library raises; `point` is `PublicKey.point()`;
`zencode` / `zdecode` are `pyzbase32.encode_bytes` / `decode_bytes`. -/
structure SigPrims (SK PK : Type) where
  pubKey : SK → PK
  point : PK → Nat × Nat
  signRecoverable : SK → List Nat → List Nat
  fromSignatureAndMessage : List Nat → List Nat → Except PyErr PK
  zencode : List Nat → String
  zdecode : String → List Nat

/-- `Cryptographer.sign`: recoverable-sign `LN_MESSAGE_PREFIX + message`,
re-encode with `sigrec_encode`, and zbase32-encode. -/
def sign {SK PK : Type} (P : SigPrims SK PK) (message : List Nat) (sk : SK) :
    Except PyErr String := do
  let rsig_rid := P.signRecoverable sk (LN_MESSAGE_PREFIX ++ message)
  let sigrec ← sigrec_encode rsig_rid
  .ok (P.zencode sigrec)

/-- `Cryptographer.recover_pk`: zbase32-decode, `sigrec_decode`, then recover
the key from signature and `LN_MESSAGE_PREFIX + message`.  Only the recovery
call sits inside the `try` block — every exception it raises is caught and
turned into a `None` return — while `sigrec_decode` runs before the `try` and
its exceptions propagate to the caller. -/
def recover_pk {SK PK : Type} (P : SigPrims SK PK) (message : List Nat)
    (zb32_sig : String) : Except PyErr (Option PK) := do
  let sigrec := P.zdecode zb32_sig
  let rsig_recid ← sigrec_decode sigrec
  match P.fromSignatureAndMessage rsig_recid (LN_MESSAGE_PREFIX ++ message) with
  | .ok pk => .ok (some pk)
  | .error _ => .ok none

/-- `Cryptographer.verify_rpk`: `pk.point() == rpk.point()`. -/
def verify_rpk {SK PK : Type} (P : SigPrims SK PK) (pk rpk : PK) : Bool :=
  P.point pk == P.point rpk

/-- A concrete instantiation of the signature primitives satisfying their
contracts (65-byte recoverable signatures whose first byte carries the key,
recovery id 0, byte-per-char zbase32 stand-in), used to instantiate the
parametric theorems at concrete inputs. -/
def natSigPrims : SigPrims Nat Nat :=
  { pubKey := fun sk => sk % 256
    point := fun pk => (pk, pk)
    signRecoverable := fun sk _ => sk % 256 :: List.replicate 64 0
    fromSignatureAndMessage := fun sig _ =>
      if sig.length = 65 then .ok (sig.headD 0) else .error (.valueError "Signature must be 65 bytes")
    zencode := fun bs => String.mk (bs.map Char.ofNat)
    zdecode := fun s => s.data.map Char.toNat }

/-! ## Appointment (`pisa/appointment.py`) and `json.dumps`

The canonical serialization is `json.dumps(d, sort_keys=True,
separators=(",", ":"))`.  JSON values are restricted to the shapes the
appointment dictionary holds (strings, integers, the `triggered` boolean);
`json.dumps` escaping is modelled for the ASCII range (quote, backslash,
control characters). -/

/-- JSON value shapes occurring in an appointment dictionary. -/
inductive JValue where
  | jstr (s : String)
  | jint (n : Int)
  | jbool (b : Bool)
deriving DecidableEq, Repr

/-- Escape of one character inside a JSON string literal, as `json.dumps`
does in the ASCII range. -/
def jsonEscapeChar (c : Char) : String :=
  if c = '"' then "\\\""
  else if c = '\\' then "\\\\"
  else if c = '\n' then "\\n"
  else if c = '\t' then "\\t"
  else if c = '\r' then "\\r"
  else if c = Char.ofNat 8 then "\\b"
  else if c = Char.ofNat 12 then "\\f"
  else if c.toNat < 32 then
    "\\u00" ++ String.mk [toHexDigit (c.toNat / 16), toHexDigit (c.toNat % 16)]
  else String.singleton c

/-- Serialization of one JSON value (`json.dumps` for scalars). -/
def serializeJValue : JValue → String
  | .jstr s => "\"" ++ String.join (s.data.map jsonEscapeChar) ++ "\""
  | .jint n => toString n
  | .jbool b => if b then "true" else "false"

/-- Python string comparison: lexicographic by Unicode code point. -/
def lexLe : List Char → List Char → Bool
  | [], _ => true
  | _ :: _, [] => false
  | c1 :: t1, c2 :: t2 => if c1 = c2 then lexLe t1 t2 else decide (c1 < c2)

/-- Key order used by `json.dumps(..., sort_keys=True)`: the items are sorted
(Python compares the key/value tuples, but dictionary keys are unique, so the
comparison never goes past the key). -/
def keyLE (p q : String × JValue) : Prop := lexLe p.1.data q.1.data = true

instance : DecidableRel keyLE := fun p q => by
  unfold keyLE; infer_instance

/-- `json.dumps(d, sort_keys=True, separators=(",", ":"))` over the items of
`d` given in insertion order. -/
def dumpsSorted (items : List (String × JValue)) : String :=
  "\x7b" ++
    String.intercalate ","
      ((items.insertionSort keyLE).map
        (fun p => serializeJValue (.jstr p.1) ++ ":" ++ serializeJValue p.2)) ++
  "\x7d"

/-- The appointment record built by `Appointment.__init__` (the raw
`encrypted_blob` argument is wrapped in an `EncryptedBlob`). -/
structure Appointment where
  locator : String
  start_time : Int
  end_time : Int
  to_self_delay : Int
  encrypted_blob : EncryptedBlob
deriving DecidableEq, Repr

/-- Untrusted input to `Appointment.from_dict`: a dictionary where any of the
five expected keys may be absent (`dict.get` returning `None`). -/
structure AppointmentData where
  locator : Option String
  start_time : Option Int
  end_time : Option Int
  to_self_delay : Option Int
  encrypted_blob : Option String
deriving DecidableEq, Repr

/-- `Appointment.from_dict`: raise `ValueError` when any of the five fields is
missing; otherwise build the appointment.  No other validation is performed. -/
def Appointment.from_dict (d : AppointmentData) : Except PyErr Appointment :=
  match d.locator, d.start_time, d.end_time, d.to_self_delay, d.encrypted_blob with
  | some l, some st, some et, some tsd, some eb =>
    .ok { locator := l, start_time := st, end_time := et, to_self_delay := tsd
          encrypted_blob := { data := eb } }
  | _, _, _, _, _ => .error (.valueError "Wrong appointment data, some fields are missing")

/-- `Appointment.to_dict`: the dictionary items in the insertion order the
source creates them. -/
def Appointment.to_dict (a : Appointment) : List (String × JValue) :=
  [("locator", .jstr a.locator),
   ("start_time", .jint a.start_time),
   ("end_time", .jint a.end_time),
   ("to_self_delay", .jint a.to_self_delay),
   ("encrypted_blob", .jstr a.encrypted_blob.data)]

/-- Items of the dictionary `Appointment.to_json` serializes: `to_dict` plus
the `triggered` flag appended last. -/
def Appointment.toJsonItems (a : Appointment) (triggered : Bool) : List (String × JValue) :=
  a.to_dict ++ [("triggered", .jbool triggered)]

/-- `Appointment.to_json(triggered)`:
`json.dumps(to_dict() + triggered, sort_keys=True, separators=(",", ":"))`. -/
def Appointment.to_json (a : Appointment) (triggered : Bool) : String :=
  dumpsSorted (a.toJsonItems triggered)

/-- Spec-side definition for comparison (from the spec's words, not the
source): the canonical appointment serialization written out explicitly —
keys in sorted order, no whitespace, `triggered` as an explicit field. -/
def canonicalAppointmentJson (a : Appointment) (triggered : Bool) : String :=
  "\x7b" ++
  "\"encrypted_blob\"" ++ ":" ++ serializeJValue (.jstr a.encrypted_blob.data) ++ "," ++
  "\"end_time\"" ++ ":" ++ serializeJValue (.jint a.end_time) ++ "," ++
  "\"locator\"" ++ ":" ++ serializeJValue (.jstr a.locator) ++ "," ++
  "\"start_time\"" ++ ":" ++ serializeJValue (.jint a.start_time) ++ "," ++
  "\"to_self_delay\"" ++ ":" ++ serializeJValue (.jint a.to_self_delay) ++ "," ++
  "\"triggered\"" ++ ":" ++ (if triggered then "true" else "false") ++
  "\x7d"

/-! ## Theorems: ChainMonitor -/

/-- A recorded hash is rejected by `update_state` and the state (queues
included) is unchanged. -/
theorem update_state_of_recorded (w : Nat) (s : ChainMonitor) (bh : String)
    (h : recorded s bh) : update_state s bh w = (false, s) := by
  unfold update_state
  rw [if_neg]
  rcases h with h | h
  · exact fun hc => hc.1 h
  · exact fun hc => hc.2 h

/-- A recorded hash makes the whole critical section a no-op. -/
theorem processTip_of_recorded (w : Nat) (s : ChainMonitor) (bh : String)
    (h : recorded s bh) : processTip w s bh = s := by
  simp [processTip, update_state_of_recorded w s bh h]

/-- `update_state` never touches the consumer queues. -/
theorem update_state_queues (w : Nat) (s : ChainMonitor) (c : String) :
    ((update_state s c w).2).watcher_queue = s.watcher_queue ∧
    ((update_state s c w).2).responder_queue = s.responder_queue := by
  unfold update_state
  split <;> exact ⟨rfl, rfl⟩

/-- Unfolding of the critical section. -/
theorem processTip_eq (w : Nat) (s : ChainMonitor) (c : String) :
    processTip w s c =
      if (update_state s c w).1 then notify_subscribers (update_state s c w).2 c
      else (update_state s c w).2 := rfl

/-- Over a serialized run, a hash that stays recorded is never enqueued. -/
theorem runTips_count_of_recorded (w : Nat) (bh : String) :
    ∀ (tips : List String) (s : ChainMonitor),
      (∀ pre suf, tips = pre ++ suf → recorded (runTips w s pre) bh) →
      (runTips w s tips).watcher_queue.count bh = s.watcher_queue.count bh ∧
      (runTips w s tips).responder_queue.count bh = s.responder_queue.count bh
  | [], _, _ => ⟨rfl, rfl⟩
  | c :: tips, s, hpre => by
    have hs : recorded s bh := by
      have := hpre [] (c :: tips) rfl
      simpa [runTips] using this
    have hcons : runTips w s (c :: tips) = runTips w (processTip w s c) tips := by
      simp [runTips]
    by_cases hc : c = bh
    · subst hc
      have hid : processTip w s c = s := processTip_of_recorded w s c hs
      have ih := runTips_count_of_recorded w c tips s (fun pre suf hps => by
        have := hpre (c :: pre) suf (by rw [hps]; rfl)
        have hshift : runTips w s (c :: pre) = runTips w s pre := by
          simp [runTips, hid]
        rwa [hshift] at this)
      rw [hcons, hid]
      exact ih
    · have hq := update_state_queues w s c
      have hw : (processTip w s c).watcher_queue.count bh = s.watcher_queue.count bh ∧
          (processTip w s c).responder_queue.count bh = s.responder_queue.count bh := by
        rw [processTip_eq]
        split
        · simp [notify_subscribers, hq.1, hq.2, List.count_append,
            List.count_singleton', beq_iff_eq, Ne.symm hc]
        · exact ⟨by rw [hq.1], by rw [hq.2]⟩
      have ih := runTips_count_of_recorded w bh tips (processTip w s c)
        (fun pre suf hps => by
          have := hpre (c :: pre) suf (by rw [hps]; rfl)
          have hshift : runTips w s (c :: pre) = runTips w (processTip w s c) pre := by
            simp [runTips]
          rwa [hshift] at this)
      rw [hcons]
      exact ⟨ih.1.trans hw.1, ih.2.trans hw.2⟩

/-- C1: a candidate hash equal to the current `best_tip` or present in
`last_tips` makes `update_state` return `False` with `best_tip`, `last_tips`
and both consumer queues unchanged, so the critical section delivers nothing;
consequently, over any serialized sequence of critical sections from the two
detection paths, a hash that stays recorded (as `best_tip` or in the window)
is never delivered again to either queue. -/
theorem chainMonitor_recorded_tip_never_redelivered
    (w : Nat) (s : ChainMonitor) (bh : String) (h : recorded s bh) :
    update_state s bh w = (false, s) ∧
    processTip w s bh = s ∧
    ∀ tips : List String,
      (∀ pre suf, tips = pre ++ suf → recorded (runTips w s pre) bh) →
      (runTips w s tips).watcher_queue.count bh = s.watcher_queue.count bh ∧
      (runTips w s tips).responder_queue.count bh = s.responder_queue.count bh :=
  ⟨update_state_of_recorded w s bh h, processTip_of_recorded w s bh h,
   fun tips hpre => runTips_count_of_recorded w bh tips s hpre⟩

theorem chainMonitor_recorded_tip_never_redelivered_witness :
    update_state ⟨some "aa", [], [], []⟩ "aa" 1 = (false, ⟨some "aa", [], [], []⟩) :=
  (chainMonitor_recorded_tip_never_redelivered 1 ⟨some "aa", [], [], []⟩ "aa"
    (Or.inl rfl)).1

/-- A fresh hash makes `update_state` append the previous `best_tip`, set the
candidate as `best_tip`, evict the front when over the window, and return
`True`. -/
theorem update_state_of_new (w : Nat) (s : ChainMonitor) (bh : String)
    (h : ¬ recorded s bh) :
    update_state s bh w =
      (true, { s with
               best_tip := some bh
               last_tips :=
                 if (s.last_tips ++ [s.best_tip]).length > w
                 then (s.last_tips ++ [s.best_tip]).tail
                 else s.last_tips ++ [s.best_tip] }) := by
  unfold recorded at h
  push_neg at h
  unfold update_state
  rw [if_pos ⟨h.1, h.2⟩]

/-- One `update_state` call keeps `last_tips` within the window bound. -/
theorem update_state_window_le (w : Nat) (s : ChainMonitor) (c : String)
    (hle : s.last_tips.length ≤ w) :
    ((update_state s c w).2).last_tips.length ≤ w := by
  by_cases hrec : recorded s c
  · rw [update_state_of_recorded w s c hrec]
    exact hle
  · rw [update_state_of_new w s c hrec]
    split
    · simp only [List.length_tail, List.length_append, List.length_singleton]
      omega
    · rename_i hgt
      simp only [not_lt, List.length_append, List.length_singleton] at hgt ⊢
      omega

/-- Any sequence of `update_state` calls keeps `last_tips` within the bound. -/
theorem runUpdates_window_le (w : Nat) :
    ∀ (tips : List String) (s : ChainMonitor), s.last_tips.length ≤ w →
      (runUpdates w s tips).last_tips.length ≤ w
  | [], _, hle => hle
  | c :: tips, s, hle => by
    have hstep := update_state_window_le w s c hle
    have hcons : runUpdates w s (c :: tips) = runUpdates w (update_state s c w).2 tips := by
      simp [runUpdates]
    rw [hcons]
    exact runUpdates_window_le w tips (update_state s c w).2 hstep

/-- C2: a candidate that differs from `best_tip` and is absent from
`last_tips` makes `update_state` append the previous `best_tip` at the back,
set `best_tip` to the candidate, evict the oldest (front) entry when the list
exceeds the window size, and return `True`; consequently `last_tips` never
grows beyond the window size, over one call or any sequence of calls, when it
starts within it. -/
theorem update_state_new_tip_and_window_bound
    (w : Nat) (s : ChainMonitor) (bh : String) (h : ¬ recorded s bh) :
    update_state s bh w =
      (true, { s with
               best_tip := some bh
               last_tips :=
                 if (s.last_tips ++ [s.best_tip]).length > w
                 then (s.last_tips ++ [s.best_tip]).tail
                 else s.last_tips ++ [s.best_tip] }) ∧
    (∀ (s' : ChainMonitor) (c : String), s'.last_tips.length ≤ w →
       ((update_state s' c w).2).last_tips.length ≤ w) ∧
    (∀ (s' : ChainMonitor) (tips : List String), s'.last_tips.length ≤ w →
       (runUpdates w s' tips).last_tips.length ≤ w) :=
  ⟨update_state_of_new w s bh h,
   fun s' c hle => update_state_window_le w s' c hle,
   fun s' tips hle => runUpdates_window_le w tips s' hle⟩

theorem update_state_new_tip_and_window_bound_witness :
    ((update_state ⟨none, [some "bb"], [], []⟩ "cc" 1).2).last_tips.length ≤ 1 :=
  (update_state_new_tip_and_window_bound 1 ChainMonitor.init "aa"
    (by decide)).2.1 ⟨none, [some "bb"], [], []⟩ "cc" (by decide)

/-- One `update_state` call preserves the monitor invariant. -/
theorem update_state_chainInv (w : Nat) (s : ChainMonitor) (bh : String)
    (hs : chainInv s) : chainInv ((update_state s bh w).2) := by
  obtain ⟨hmem, hnd⟩ := hs
  unfold update_state
  split
  · rename_i hcond
    have hnotin : some bh ∉ s.last_tips ++ [s.best_tip] := by
      simp only [List.mem_append, List.mem_singleton]
      rintro (hin | heq)
      · exact hcond.2 hin
      · exact hcond.1 heq
    have hnd0 : (s.last_tips ++ [s.best_tip]).Nodup := by
      refine List.Nodup.append hnd (List.nodup_singleton _) ?_
      intro a ha hb
      rw [List.mem_singleton] at hb
      exact hmem (hb ▸ ha)
    constructor
    · simp only []
      split
      · exact fun hin => hnotin (List.mem_of_mem_tail hin)
      · exact hnotin
    · simp only []
      split
      · exact List.Sublist.nodup (List.tail_sublist _) hnd0
      · exact hnd0
  · exact ⟨hmem, hnd⟩

/-- Any sequence of `update_state` calls preserves the monitor invariant. -/
theorem runUpdates_chainInv (w : Nat) :
    ∀ (tips : List String) (s : ChainMonitor), chainInv s →
      chainInv (runUpdates w s tips)
  | [], _, hs => hs
  | c :: tips, s, hs => by
    have hcons : runUpdates w s (c :: tips) = runUpdates w (update_state s c w).2 tips := by
      simp [runUpdates]
    rw [hcons]
    exact runUpdates_chainInv w tips _ (update_state_chainInv w s c hs)

/-- C10: from a freshly constructed monitor, the invariant "`best_tip` is not
in `last_tips`, and `last_tips` has no duplicates" holds initially, is
preserved by every `update_state` call, and therefore holds after every
sequence of calls. -/
theorem chainMonitor_invariant :
    chainInv ChainMonitor.init ∧
    (∀ (w : Nat) (s : ChainMonitor) (bh : String), chainInv s →
       chainInv ((update_state s bh w).2)) ∧
    (∀ (w : Nat) (tips : List String), chainInv (runUpdates w ChainMonitor.init tips)) :=
  ⟨⟨by simp [ChainMonitor.init], List.nodup_nil⟩,
   fun w s bh hs => update_state_chainInv w s bh hs,
   fun w tips => runUpdates_chainInv w tips ChainMonitor.init
     ⟨by simp [ChainMonitor.init], List.nodup_nil⟩⟩

theorem chainMonitor_invariant_witness :
    chainInv ((update_state ⟨some "aa", [none], [], []⟩ "bb" 2).2) :=
  chainMonitor_invariant.2.1 2 ⟨some "aa", [none], [], []⟩ "bb" (by decide)

/-! ## Theorems: hex encoding -/

/-- `Char.ofNat` round-trips on valid scalar values below the surrogate range. -/
theorem charToNat_ofNat (n : Nat) (h : n < 55296) : (Char.ofNat n).toNat = n := by
  unfold Char.ofNat
  rw [dif_pos (Or.inl h)]
  rfl

/-- A hex digit produced by `toHexDigit` parses back to its value. -/
theorem hexVal_toHexDigit (n : Nat) (h : n < 16) : hexVal (toHexDigit n) = some n := by
  interval_cases n <;> decide

/-- A lower-case hex character has a value below 16 and `toHexDigit`
reproduces the character. -/
theorem hexVal_of_lower (c : Char) (h : isLowerHexChar c = true) :
    ∃ v, hexVal c = some v ∧ v < 16 ∧ toHexDigit v = c := by
  simp only [isLowerHexChar, decide_eq_true_eq] at h
  rcases h with ⟨h1, h2⟩ | ⟨h1, h2⟩
  · have l1 : 48 ≤ c.toNat := h1
    have l2 : c.toNat ≤ 57 := h2
    refine ⟨c.toNat - 48, ?_, by omega, ?_⟩
    · unfold hexVal
      rw [if_pos ⟨h1, h2⟩]
    · obtain ⟨m, hm1, hm2, rfl⟩ : ∃ m, 48 ≤ m ∧ m ≤ 57 ∧ Char.ofNat m = c :=
        ⟨c.toNat, l1, l2, Char.ofNat_toNat c⟩
      interval_cases m <;> decide
  · have l1 : 97 ≤ c.toNat := h1
    have l2 : c.toNat ≤ 102 := h2
    have hne : ¬('0' ≤ c ∧ c ≤ '9') := by
      rintro ⟨-, h9⟩
      have : c.toNat ≤ 57 := h9
      omega
    refine ⟨c.toNat - 87, ?_, by omega, ?_⟩
    · unfold hexVal
      rw [if_neg hne, if_pos ⟨h1, h2⟩]
    · obtain ⟨m, hm1, hm2, rfl⟩ : ∃ m, 97 ≤ m ∧ m ≤ 102 ∧ Char.ofNat m = c :=
        ⟨c.toNat, l1, l2, Char.ofNat_toNat c⟩
      interval_cases m <;> decide

/-- Any hex character parses to a value below 16. -/
theorem hexVal_of_hex (c : Char) (h : isHexChar c = true) :
    ∃ v, hexVal c = some v ∧ v < 16 := by
  simp only [isHexChar, Option.isSome_iff_exists] at h
  obtain ⟨v, hv⟩ := h
  refine ⟨v, hv, ?_⟩
  unfold hexVal at hv
  split_ifs at hv with g1 g2 g3 <;> injection hv with hv <;> subst hv
  · have : c.toNat ≤ 57 := g1.2
    omega
  · have : c.toNat ≤ 102 := g2.2
    omega
  · have : c.toNat ≤ 70 := g3.2
    omega

/-- `unhexlify` inverts `hexlify` on byte lists. -/
theorem unhexlify_hexlify : ∀ bs : List Nat, (∀ b ∈ bs, b < 256) →
    unhexlifyChars (hexlifyChars bs) = .ok bs
  | [], _ => rfl
  | b :: bs, h => by
    have hb : b < 256 := h b (List.mem_cons_self _ _)
    have ih := unhexlify_hexlify bs (fun x hx => h x (List.mem_cons_of_mem _ hx))
    have h1 : hexVal (toHexDigit (b / 16)) = some (b / 16) :=
      hexVal_toHexDigit _ (by omega)
    have h2 : hexVal (toHexDigit (b % 16)) = some (b % 16) :=
      hexVal_toHexDigit _ (by omega)
    have harith : 16 * (b / 16) + b % 16 = b := by omega
    simp [hexlifyChars, unhexlifyChars, h1, h2, ih, harith, Bind.bind, Except.bind]

/-- `hexlify` doubles the length. -/
theorem hexlifyChars_length : ∀ bs : List Nat, (hexlifyChars bs).length = 2 * bs.length
  | [] => rfl
  | _ :: bs => by
    simp [hexlifyChars, hexlifyChars_length bs]
    omega

/-- An even-length hex character list `unhexlify`s successfully. -/
theorem unhexlify_ok_of_hex : ∀ l : List Char, (∀ c ∈ l, isHexChar c = true) →
    l.length % 2 = 0 → ∃ bs, unhexlifyChars l = .ok bs
  | [], _, _ => ⟨[], rfl⟩
  | [c], _, hev => by simp at hev
  | c1 :: c2 :: rest, hhex, hev => by
    obtain ⟨v1, hv1, _⟩ := hexVal_of_hex c1 (hhex c1 (by simp))
    obtain ⟨v2, hv2, _⟩ := hexVal_of_hex c2 (hhex c2 (by simp))
    obtain ⟨bs, hbs⟩ := unhexlify_ok_of_hex rest
      (fun c hc => hhex c (by simp [hc]))
      (by simp [List.length_cons] at hev ⊢; omega)
    exact ⟨(16 * v1 + v2) :: bs, by simp [unhexlifyChars, hv1, hv2, hbs, Bind.bind, Except.bind]⟩

/-- An even-length lower-case hex character list `unhexlify`s to bytes that
`hexlify` maps back to exactly the original characters. -/
theorem unhexlify_lower_inv : ∀ l : List Char, (∀ c ∈ l, isLowerHexChar c = true) →
    l.length % 2 = 0 →
    ∃ bs, unhexlifyChars l = .ok bs ∧ hexlifyChars bs = l ∧ ∀ b ∈ bs, b < 256
  | [], _, _ => ⟨[], rfl, rfl, by simp⟩
  | [c], _, hev => by simp at hev
  | c1 :: c2 :: rest, hlow, hev => by
    obtain ⟨v1, hv1, hlt1, hd1⟩ := hexVal_of_lower c1 (hlow c1 (by simp))
    obtain ⟨v2, hv2, hlt2, hd2⟩ := hexVal_of_lower c2 (hlow c2 (by simp))
    obtain ⟨bs, hbs, hback, hbnd⟩ := unhexlify_lower_inv rest
      (fun c hc => hlow c (by simp [hc]))
      (by simp [List.length_cons] at hev ⊢; omega)
    refine ⟨(16 * v1 + v2) :: bs, by simp [unhexlifyChars, hv1, hv2, hbs, Bind.bind, Except.bind], ?_, ?_⟩
    · have e1 : (16 * v1 + v2) / 16 = v1 := by omega
      have e2 : (16 * v1 + v2) % 16 = v2 := by omega
      simp [hexlifyChars, e1, e2, hd1, hd2, hback]
    · intro b hb
      rcases List.mem_cons.mp hb with rfl | hb
      · omega
      · exact hbnd b hb

/-! ## Theorems: encrypt / decrypt -/

/-- On a bad format, `check_data_key_format` raises a `ValueError`. -/
theorem check_data_key_format_error (d secret : String)
    (h : d.length % 2 = 1 ∨ check_sha256_hex_format secret = false) :
    ∃ m, check_data_key_format d secret = .error (.valueError m) := by
  unfold check_data_key_format
  rcases h with h | h
  · exact ⟨_, by rw [if_pos (by omega)]⟩
  · by_cases hd : d.length % 2 ≠ 0
    · exact ⟨_, by rw [if_pos hd]⟩
    · exact ⟨_, by rw [if_neg hd, if_pos (by simp [h])]⟩

/-- C4: on odd-length data or a secret that is not 64 hex characters, both
`encrypt` and `decrypt` raise a `ValueError`, and the result is the same for
every choice of the cryptographic primitives — the format check runs before,
and independently of, any key derivation, encryption or decryption. -/
theorem encrypt_decrypt_format_guard (P₁ P₂ : AEADPrims) (d secret : String)
    (h : d.length % 2 = 1 ∨ check_sha256_hex_format secret = false) :
    (∃ m, encrypt P₁ ⟨d⟩ secret = .error (.valueError m)) ∧
    encrypt P₁ ⟨d⟩ secret = encrypt P₂ ⟨d⟩ secret ∧
    (∃ m, decrypt P₁ ⟨d⟩ secret = .error (.valueError m)) ∧
    decrypt P₁ ⟨d⟩ secret = decrypt P₂ ⟨d⟩ secret := by
  obtain ⟨m, hm⟩ := check_data_key_format_error d secret h
  refine ⟨⟨m, ?_⟩, ?_, ⟨m, ?_⟩, ?_⟩ <;>
    simp [encrypt, decrypt, hm, Bind.bind, Except.bind]

theorem encrypt_decrypt_format_guard_witness :
    ∃ m, encrypt idAEAD ⟨"a"⟩ "" = .error (.valueError m) :=
  (encrypt_decrypt_format_guard idAEAD idAEAD "a" "" (Or.inl (by decide))).1

/-- C3 counterexample: `"AB"` is even-length valid hex and the all-zero
64-char secret is valid, yet the round trip returns `"ab"`, not `"AB"`:
`decrypt` re-encodes the decrypted bytes with `hexlify`, which is lower-case.
(`idAEAD` satisfies the AEAD round-trip contract, and the final `hexlify`
step does not depend on the cipher at all.) -/
theorem encrypt_decrypt_roundtrip_counterexample :
    ("AB".length % 2 = 0 ∧ "AB".data.all isHexChar = true ∧
      check_sha256_hex_format
        "0000000000000000000000000000000000000000000000000000000000000000" = true) ∧
    encrypt idAEAD ⟨"AB"⟩
      "0000000000000000000000000000000000000000000000000000000000000000" = .ok "ab" ∧
    decrypt idAEAD ⟨"ab"⟩
      "0000000000000000000000000000000000000000000000000000000000000000" =
      .ok (some "ab") ∧
    ("ab" : String) ≠ "AB" := by
  refine ⟨⟨by decide, by decide, by decide⟩, by decide, by decide, by decide⟩

/-- C3 (amended): for any cipher satisfying the AEAD functional contract,
any blob whose data is even-length lower-case hex, and any 64-hex-char
secret, `decrypt(EncryptedBlob(encrypt(blob, secret)), secret)` returns
exactly `blob.data`. -/
theorem encrypt_decrypt_roundtrip (P : AEADPrims)
    (hP : ∀ k n d, P.chachaDecrypt k n (P.chachaEncrypt k n d) = some d)
    (hPb : ∀ k n d, (∀ x ∈ d, x < 256) → ∀ b ∈ P.chachaEncrypt k n d, b < 256)
    (b : Blob) (secret : String)
    (hdata : ∀ c ∈ b.data.data, isLowerHexChar c = true)
    (heven : b.data.length % 2 = 0)
    (hsec : check_sha256_hex_format secret = true) :
    ∃ ct, encrypt P b secret = .ok ct ∧ decrypt P ⟨ct⟩ secret = .ok (some b.data) := by
  have hsec' := hsec
  simp only [check_sha256_hex_format, Bool.and_eq_true, beq_iff_eq,
    List.all_eq_true] at hsec'
  have hck : check_data_key_format b.data secret = .ok true := by
    unfold check_data_key_format
    rw [if_neg (by omega), if_neg (by simp [hsec])]
  obtain ⟨tx, htx, hback, htxbnd⟩ :=
    unhexlify_lower_inv b.data.data hdata heven
  obtain ⟨key, hkey⟩ := unhexlify_ok_of_hex secret.data hsec'.2 (by
    have : secret.length = 64 := hsec'.1
    have hl : secret.data.length = 64 := this
    omega)
  obtain ⟨ctb, hctb⟩ :
      ∃ ctb, P.chachaEncrypt (P.sha256 key)
        [0, 0, 0, 0, 0, 0, 0, 0, 0, 0, 0, 0] tx = ctb :=
    ⟨_, rfl⟩
  have hct : encrypt P b secret = .ok (hexlifyStr ctb) := by
    simp [encrypt, hck, pyUnhexlify, htx, hkey, Bind.bind, Except.bind]
    rw [hctb]
  refine ⟨hexlifyStr ctb, hct, ?_⟩
  have hctbnd : ∀ x ∈ ctb, x < 256 := hctb ▸ hPb (P.sha256 key) _ tx htxbnd
  have hctlen : (String.mk (hexlifyChars ctb)).length % 2 = 0 := by
    show (hexlifyChars ctb).length % 2 = 0
    rw [hexlifyChars_length]
    omega
  have hck2 : check_data_key_format (String.mk (hexlifyChars ctb)) secret = .ok true := by
    unfold check_data_key_format
    rw [if_neg (by omega), if_neg (by simp [hsec])]
  have hun : unhexlifyChars (hexlifyChars ctb) = .ok ctb :=
    unhexlify_hexlify ctb hctbnd
  have hdec : P.chachaDecrypt (P.sha256 key)
      [0, 0, 0, 0, 0, 0, 0, 0, 0, 0, 0, 0] ctb = some tx := by
    rw [← hctb]
    exact hP (P.sha256 key) _ tx
  have hout : String.mk (hexlifyChars tx) = b.data := by
    rw [hback]
  simp [decrypt, hck2, hun, pyUnhexlify, hexlifyStr, hkey, Bind.bind,
    Except.bind, hdec, hout]

theorem encrypt_decrypt_roundtrip_witness :
    ∃ ct, encrypt idAEAD ⟨"ab"⟩
        "0000000000000000000000000000000000000000000000000000000000000000" = .ok ct ∧
      decrypt idAEAD ⟨ct⟩
        "0000000000000000000000000000000000000000000000000000000000000000" =
        .ok (some "ab") :=
  encrypt_decrypt_roundtrip idAEAD (fun _ _ _ => rfl) (fun _ _ _ h => h)
    ⟨"ab"⟩ "0000000000000000000000000000000000000000000000000000000000000000"
    (by decide) (by decide) (by decide)

/-! ## Theorems: recoverable signatures -/

/-- `int_to_bytes` of a byte value is that single byte. -/
theorem int_to_bytes_small (n : Nat) (h : n < 256) : int_to_bytes n = [n] := by
  unfold int_to_bytes
  rw [if_pos h]

/-- `sigrec_decode` inverts `sigrec_encode` on a 65-byte recoverable
signature whose recovery id keeps `rid + 31` within one byte. -/
theorem sigrec_decode_encode (rsig : List Nat) (rid : Nat)
    (hlen : rsig.length = 64) (hrid : rid < 225) :
    sigrec_encode (rsig ++ [rid]) = .ok ((rid + 31) :: rsig) ∧
    sigrec_decode ((rid + 31) :: rsig) = .ok (rsig ++ [rid]) := by
  constructor
  · have hl : 64 < (rsig ++ [rid]).length := by
      simp [List.length_append, hlen]
    unfold sigrec_encode
    rw [dif_pos hl]
    have hget : (rsig ++ [rid]).get ⟨64, hl⟩ = rid := by
      rw [List.get_eq_getElem]
      simp only [Fin.getElem_fin]
      rw [List.getElem_append_right (by omega)]
      simp [hlen]
    have htake : (rsig ++ [rid]).take 64 = rsig := by
      rw [← hlen]
      exact List.take_left rsig [rid]
    rw [hget, htake, int_to_bytes_small (rid + 31) (by omega)]
    rfl
  · show (if rid + 31 < 31 then Except.error PyErr.overflowError
      else Except.ok (rsig ++ int_to_bytes (rid + 31 - 31))) = .ok (rsig ++ [rid])
    rw [if_neg (by omega)]
    rw [show rid + 31 - 31 = rid by omega, int_to_bytes_small rid (by omega)]

/-- C5: for any message and key, with the external primitives satisfying
their contracts (the recoverable signature is 64 bytes plus a recovery id
below 4, zbase32 decode inverts encode on byte lists, and public-key recovery
of a freshly produced signature over the same prefixed message yields the
signer's public key), `recover_pk(message, sign(message, sk))` succeeds and
`verify_rpk` reports the recovered key equal to `sk`'s public key. -/
theorem sign_recover_pk_roundtrip {SK PK : Type} (P : SigPrims SK PK)
    (message : List Nat) (sk : SK) (rsig : List Nat) (rid : Nat)
    (hsig : P.signRecoverable sk (LN_MESSAGE_PREFIX ++ message) = rsig ++ [rid])
    (hlen : rsig.length = 64) (hrid : rid < 4)
    (hbytes : ∀ b ∈ rsig, b < 256)
    (hz : ∀ bs : List Nat, (∀ b ∈ bs, b < 256) → P.zdecode (P.zencode bs) = bs)
    (hrec : P.fromSignatureAndMessage (rsig ++ [rid]) (LN_MESSAGE_PREFIX ++ message) =
      .ok (P.pubKey sk)) :
    ∃ sigstr, sign P message sk = .ok sigstr ∧
      recover_pk P message sigstr = .ok (some (P.pubKey sk)) ∧
      verify_rpk P (P.pubKey sk) (P.pubKey sk) = true := by
  obtain ⟨henc, hdec⟩ := sigrec_decode_encode rsig rid hlen (by omega)
  refine ⟨P.zencode ((rid + 31) :: rsig), ?_, ?_, ?_⟩
  · simp [sign, hsig, henc, Bind.bind, Except.bind]
  · have hzc : P.zdecode (P.zencode ((rid + 31) :: rsig)) = (rid + 31) :: rsig := by
      refine hz _ ?_
      intro b hb
      rcases List.mem_cons.mp hb with rfl | hb
      · omega
      · exact hbytes b hb
    simp [recover_pk, hzc, hdec, hrec, Bind.bind, Except.bind]
  · simp [verify_rpk]

/-- The stand-in byte-per-char codec round-trips on byte lists. -/
theorem natSigPrims_z_roundtrip (bs : List Nat) (h : ∀ b ∈ bs, b < 256) :
    natSigPrims.zdecode (natSigPrims.zencode bs) = bs := by
  simp only [natSigPrims]
  rw [List.map_map]
  refine List.map_congr_left ?_ |>.trans (List.map_id bs)
  intro b hb
  exact charToNat_ofNat b (by have := h b hb; omega)

theorem sign_recover_pk_roundtrip_witness :
    ∃ sigstr, sign natSigPrims [1, 2, 3] 7 = .ok sigstr ∧
      recover_pk natSigPrims [1, 2, 3] sigstr = .ok (some (natSigPrims.pubKey 7)) ∧
      verify_rpk natSigPrims (natSigPrims.pubKey 7) (natSigPrims.pubKey 7) = true :=
  sign_recover_pk_roundtrip natSigPrims [1, 2, 3] 7 (7 :: List.replicate 63 0) 0
    (by decide) (by decide) (by decide) (by decide)
    (fun bs h => natSigPrims_z_roundtrip bs h) (by decide)

/-- C6: at the failing input — a signature string whose zbase32 decoding is
empty (the empty string decodes to zero bytes) — `recover_pk` raises an
uncaught `IndexError` from `sigrec_decode` (`sigrec[0]`), because the
zbase32 decode and `sigrec_decode` run before the `try` block; the claim
(return null, never raise) is violated there. -/
theorem recover_pk_empty_sig_raises {SK PK : Type} (P : SigPrims SK PK)
    (message : List Nat) (hz : P.zdecode "" = []) :
    recover_pk P message "" = .error .indexError := by
  simp [recover_pk, hz, sigrec_decode, Bind.bind, Except.bind]

theorem recover_pk_empty_sig_raises_witness :
    recover_pk natSigPrims [] "" = .error .indexError :=
  recover_pk_empty_sig_raises natSigPrims [] rfl

/-! ## Theorems: canonical appointment serialization -/

/-- `lexLe` is total. -/
theorem lexLe_total : ∀ a b : List Char, lexLe a b = true ∨ lexLe b a = true
  | [], _ => Or.inl rfl
  | _ :: _, [] => Or.inr rfl
  | c1 :: t1, c2 :: t2 => by
    by_cases h : c1 = c2
    · subst h
      rcases lexLe_total t1 t2 with h | h
      · exact Or.inl (by simp [lexLe, h])
      · exact Or.inr (by simp [lexLe, h])
    · rcases lt_or_gt_of_ne h with hlt | hgt
      · exact Or.inl (by simp [lexLe, h, hlt])
      · exact Or.inr (by simp [lexLe, Ne.symm h, hgt])

/-- `lexLe` is transitive. -/
theorem lexLe_trans : ∀ a b c : List Char,
    lexLe a b = true → lexLe b c = true → lexLe a c = true
  | [], _, _, _, _ => rfl
  | _ :: _, [], _, hab, _ => by simp [lexLe] at hab
  | _ :: _, _ :: _, [], _, hbc => by simp [lexLe] at hbc
  | a1 :: t1, b1 :: t2, c1 :: t3, hab, hbc => by
    by_cases h1 : a1 = b1 <;> by_cases h2 : b1 = c1
    · subst h1; subst h2
      simp only [lexLe, if_pos rfl] at hab hbc ⊢
      exact lexLe_trans t1 t2 t3 hab hbc
    · subst h1
      simp [lexLe, h2] at hbc ⊢
      exact hbc
    · subst h2
      simp [lexLe, h1] at hab ⊢
      exact hab
    · simp [lexLe, h1, h2] at hab hbc
      have hac : a1 < c1 := lt_trans hab hbc
      simp [lexLe, ne_of_lt hac, hac]

/-- `lexLe` is antisymmetric. -/
theorem lexLe_antisymm : ∀ a b : List Char,
    lexLe a b = true → lexLe b a = true → a = b
  | [], [], _, _ => rfl
  | [], _ :: _, _, hba => by simp [lexLe] at hba
  | _ :: _, [], hab, _ => by simp [lexLe] at hab
  | a1 :: t1, b1 :: t2, hab, hba => by
    by_cases h : a1 = b1
    · subst h
      simp only [lexLe, if_pos rfl] at hab hba
      rw [lexLe_antisymm t1 t2 hab hba]
    · simp [lexLe, h, Ne.symm h] at hab hba
      exact absurd hba (lt_asymm hab)

/-- Two pairwise facts combine pointwise. -/
theorem pairwise_and_of {α : Type _} {R S : α → α → Prop} :
    ∀ {l : List α}, l.Pairwise R → l.Pairwise S →
      l.Pairwise fun a b => R a b ∧ S a b
  | [], _, _ => List.Pairwise.nil
  | _ :: _, h1, h2 => by
    rcases List.pairwise_cons.mp h1 with ⟨ha1, h1t⟩
    rcases List.pairwise_cons.mp h2 with ⟨ha2, h2t⟩
    exact List.pairwise_cons.mpr
      ⟨fun b hb => ⟨ha1 b hb, ha2 b hb⟩, pairwise_and_of h1t h2t⟩

/-- Strings with equal character lists are equal. -/
theorem strEq_of_data (s t : String) (h : s.data = t.data) : s = t := by
  cases s
  cases t
  exact congrArg String.mk h

/-- Sorting by key does not depend on the insertion order of the items,
provided the keys are distinct (as dictionary keys are). -/
theorem insertionSort_keyLE_perm_eq (l₁ l₂ : List (String × JValue))
    (hp : l₁.Perm l₂) (hnd : (l₁.map Prod.fst).Nodup) :
    l₁.insertionSort keyLE = l₂.insertionSort keyLE := by
  haveI : IsTotal (String × JValue) keyLE :=
    ⟨fun a b => lexLe_total a.1.data b.1.data⟩
  haveI : IsTrans (String × JValue) keyLE :=
    ⟨fun _ _ _ hab hbc => lexLe_trans _ _ _ hab hbc⟩
  have hs₁ := List.sorted_insertionSort keyLE l₁
  have hs₂ := List.sorted_insertionSort keyLE l₂
  have hps : (l₁.insertionSort keyLE).Perm (l₂.insertionSort keyLE) :=
    (List.perm_insertionSort keyLE l₁).trans
      (hp.trans (List.perm_insertionSort keyLE l₂).symm)
  have hnd₁ : (((l₁.insertionSort keyLE)).map Prod.fst).Nodup :=
    (((List.perm_insertionSort keyLE l₁).map Prod.fst).symm).nodup hnd
  have hnd₂ : (((l₂.insertionSort keyLE)).map Prod.fst).Nodup :=
    (((List.perm_insertionSort keyLE l₂).map Prod.fst).symm).nodup
      ((hp.map Prod.fst).nodup hnd)
  have strict : ∀ l : List (String × JValue), l.Pairwise keyLE →
      ((l.map Prod.fst)).Nodup →
      l.Pairwise fun p q => keyLE p q ∧ p.1 ≠ q.1 := by
    intro l hle hnd'
    have hne : l.Pairwise fun p q => p.1 ≠ q.1 := List.pairwise_map.mp hnd'
    exact pairwise_and_of hle hne
  haveI : IsAntisymm (String × JValue) (fun p q => keyLE p q ∧ p.1 ≠ q.1) :=
    ⟨fun a b h1 h2 =>
      absurd (strEq_of_data a.1 b.1 (lexLe_antisymm a.1.data b.1.data h1.1 h2.1))
        h1.2⟩
  exact List.eq_of_perm_of_sorted hps (strict _ hs₁ hnd₁) (strict _ hs₂ hnd₂)

/-- `String.intercalate` on six strings, written out. -/
theorem intercalate_six (s1 s2 s3 s4 s5 s6 : String) :
    String.intercalate "," [s1, s2, s3, s4, s5, s6] =
      s1 ++ "," ++ s2 ++ "," ++ s3 ++ "," ++ s4 ++ "," ++ s5 ++ "," ++ s6 := rfl

/-- C7: `to_json(triggered)` is a pure function of the five core fields and
the `triggered` flag, produces the explicit canonical string (keys quoted and
sorted, `:` and `,` separators, no whitespace, `triggered` appended), and the
serialization of any permutation of the dictionary items — any insertion or
iteration order — is byte-identical to it. -/
theorem to_json_deterministic_canonical (a : Appointment) (t : Bool)
    (items : List (String × JValue)) (hperm : items.Perm (a.toJsonItems t)) :
    dumpsSorted items = Appointment.to_json a t ∧
    Appointment.to_json a t = canonicalAppointmentJson a t := by
  have hnd : ((a.toJsonItems t).map Prod.fst).Nodup := by
    show ([("locator", JValue.jstr a.locator),
      ("start_time", JValue.jint a.start_time),
      ("end_time", JValue.jint a.end_time),
      ("to_self_delay", JValue.jint a.to_self_delay),
      ("encrypted_blob", JValue.jstr a.encrypted_blob.data),
      ("triggered", JValue.jbool t)].map Prod.fst).Nodup
    simp only [List.map_cons, List.map_nil]
    decide
  have hsorteq : items.insertionSort keyLE = (a.toJsonItems t).insertionSort keyLE :=
    insertionSort_keyLE_perm_eq items (a.toJsonItems t) hperm
      (((hperm.map Prod.fst).symm).nodup hnd)
  have hfirst : dumpsSorted items = Appointment.to_json a t := by
    show dumpsSorted items = dumpsSorted (a.toJsonItems t)
    unfold dumpsSorted
    rw [hsorteq]
  refine ⟨hfirst, ?_⟩
  have hsort : (a.toJsonItems t).insertionSort keyLE =
      [("encrypted_blob", JValue.jstr a.encrypted_blob.data),
       ("end_time", JValue.jint a.end_time),
       ("locator", JValue.jstr a.locator),
       ("start_time", JValue.jint a.start_time),
       ("to_self_delay", JValue.jint a.to_self_delay),
       ("triggered", JValue.jbool t)] := rfl
  have k1 : serializeJValue (.jstr "encrypted_blob") = "\"encrypted_blob\"" := by decide
  have k2 : serializeJValue (.jstr "end_time") = "\"end_time\"" := by decide
  have k3 : serializeJValue (.jstr "locator") = "\"locator\"" := by decide
  have k4 : serializeJValue (.jstr "start_time") = "\"start_time\"" := by decide
  have k5 : serializeJValue (.jstr "to_self_delay") = "\"to_self_delay\"" := by decide
  have k6 : serializeJValue (.jstr "triggered") = "\"triggered\"" := by decide
  have kb : serializeJValue (.jbool t) = if t then "true" else "false" := rfl
  show dumpsSorted (a.toJsonItems t) = canonicalAppointmentJson a t
  unfold dumpsSorted canonicalAppointmentJson
  rw [hsort]
  simp only [List.map_cons, List.map_nil]
  rw [intercalate_six, k1, k2, k3, k4, k5, k6, kb]
  simp only [String.append_assoc]

theorem to_json_deterministic_canonical_witness :
    dumpsSorted
        [("triggered", JValue.jbool true),
         ("encrypted_blob", JValue.jstr "bb"),
         ("to_self_delay", JValue.jint 3),
         ("end_time", JValue.jint 2),
         ("start_time", JValue.jint 1),
         ("locator", JValue.jstr "aa")] =
      Appointment.to_json ⟨"aa", 1, 2, 3, ⟨"bb"⟩⟩ true ∧
    Appointment.to_json ⟨"aa", 1, 2, 3, ⟨"bb"⟩⟩ true =
      canonicalAppointmentJson ⟨"aa", 1, 2, 3, ⟨"bb"⟩⟩ true :=
  to_json_deterministic_canonical ⟨"aa", 1, 2, 3, ⟨"bb"⟩⟩ true _ (by decide)

/-! ## Theorems: Appointment construction -/

/-- C8 counterexample: input whose locator is `"00"` — 2 characters, not 32 —
constructs successfully through `from_dict`, because `from_dict` checks only
that the five fields are present and performs no locator format validation. -/
theorem from_dict_no_locator_check :
    Appointment.from_dict ⟨some "00", some 1, some 2, some 3, some ""⟩ =
      .ok ⟨"00", 1, 2, 3, ⟨""⟩⟩ ∧
    ¬ ("00".length = 32) :=
  ⟨rfl, by decide⟩

/-- C8 (amended): `from_dict` succeeds exactly when all five fields are
present, and then builds the appointment from the given values verbatim; the
locator's 32-hex-character shape is a data-model requirement that `from_dict`
does not enforce. -/
theorem from_dict_presence_only (d : AppointmentData) :
    ((∃ a, Appointment.from_dict d = .ok a) ↔
      (d.locator ≠ none ∧ d.start_time ≠ none ∧ d.end_time ≠ none ∧
       d.to_self_delay ≠ none ∧ d.encrypted_blob ≠ none)) ∧
    (∀ (l : String) (st et tsd : Int) (eb : String),
      Appointment.from_dict ⟨some l, some st, some et, some tsd, some eb⟩ =
        .ok ⟨l, st, et, tsd, ⟨eb⟩⟩) := by
  constructor
  · obtain ⟨l0, st0, et0, tsd0, eb0⟩ := d
    cases l0 <;> cases st0 <;> cases et0 <;> cases tsd0 <;> cases eb0 <;>
      simp [Appointment.from_dict]
  · intro l st et tsd eb
    rfl
